import Mathlib

/-!
Shallow embedding of the analysis pipeline of `backend/nlp.py`
(resume/job skill extraction, match scoring, suggestion providers).

Strings are modelled as `List Char` (`Str`). Python's `str.lower` is
modelled characterwise by `Char.toLower` (ASCII); the regex class `\s`
by the ASCII whitespace characters. Floating-point arithmetic in
`compute_match` is modelled over `ℚ` with Python's round-half-to-even.
-/

abbrev Str := List Char

/-- ASCII model of the regex class `\s` used by `re.sub` and `str.strip`. -/
def pyIsSpace (c : Char) : Bool :=
  c = ' ' || c = '\t' || c = '\n' || c = '\x0d' || c = '\x0b' || c = '\x0c'

/-- Characters kept by the character class `[^a-z0-9\s+#\.\-]` in
`normalize_text` (its complement). -/
def keepChar (c : Char) : Bool :=
  ('a' ≤ c && c ≤ 'z') || ('0' ≤ c && c ≤ '9') || pyIsSpace c ||
    c = '+' || c = '#' || c = '.' || c = '-'

/-- Model of `re.sub(r"\s+", " ", s)`: each maximal run of whitespace
becomes a single space. -/
def collapseWs : Str → Str
  | [] => []
  | [c] => if pyIsSpace c then [' '] else [c]
  | c :: d :: rest =>
    if pyIsSpace c then
      if pyIsSpace d then collapseWs (d :: rest)
      else ' ' :: collapseWs (d :: rest)
    else c :: collapseWs (d :: rest)

/-- Model of Python `str.strip()`. -/
def stripWs (l : Str) : Str :=
  ((l.dropWhile pyIsSpace).reverse.dropWhile pyIsSpace).reverse

/-- Per-character action of `s.lower()` followed by
`re.sub(r"[^a-z0-9\s+#\.\-]", " ", s)`. -/
def normChar (c : Char) : Char :=
  let c' := c.toLower
  if keepChar c' then c' else ' '

/-- `normalize_text` from `backend/nlp.py`:
lower-case, replace disallowed characters by a space, collapse
whitespace runs, strip. -/
def normalize_text (s : Str) : Str :=
  stripWs (collapseWs (s.map normChar))

/-- Character class `[A-Za-z\+\#]` of the token regex in `extract_skills`. -/
def isTokChar (c : Char) : Bool :=
  ('A' ≤ c && c ≤ 'Z') || ('a' ≤ c && c ≤ 'z') || c = '+' || c = '#'

/-- Split into maximal runs of `isTokChar` characters (accumulator holds the
current run reversed). -/
def tokenRunsAux : Str → Str → List Str
  | [], acc => if acc.isEmpty then [] else [acc.reverse]
  | c :: rest, acc =>
    if isTokChar c then tokenRunsAux rest (c :: acc)
    else if acc.isEmpty then tokenRunsAux rest []
    else acc.reverse :: tokenRunsAux rest []

/-- Model of `re.findall(r"[A-Za-z\+\#]{2,}", text)`: the maximal runs of
token characters of length at least 2. -/
def pyTokens (s : Str) : List Str :=
  (tokenRunsAux s []).filter (fun r => 2 ≤ r.length)

/-- `COMMON_SKILLS` from `backend/nlp.py`. -/
def COMMON_SKILLS : List Str :=
  [ "java".toList, "python".toList, "c++".toList, "c#".toList, "javascript".toList,
    "react".toList, "angular".toList, "spring".toList, "spring boot".toList, "hibernate".toList,
    "sql".toList, "postgresql".toList, "mysql".toList, "nosql".toList, "mongodb".toList,
    "docker".toList, "kubernetes".toList, "aws".toList, "azure".toList, "gcp".toList,
    "rest api".toList, "graphql".toList, "microservices".toList, "git".toList, "linux".toList,
    "data structures".toList, "algorithms".toList, "machine learning".toList,
    "deep learning".toList, "nlp".toList, "pytorch".toList, "tensorflow".toList,
    "scikit-learn".toList, "pandas".toList, "numpy".toList, "spark".toList, "hadoop".toList,
    "jenkins".toList, "ci/cd".toList, "prometheus".toList, "grafana".toList,
    "ansible".toList, "terraform".toList ]

/-- Model of the Python substring test `needle in hay` on strings. -/
def strContains (hay needle : Str) : Bool :=
  match hay with
  | [] => needle.isEmpty
  | _ :: rest => needle.isPrefixOf hay || strContains rest needle

/-- Model of Python `sorted(found)` for a set of strings: deduplicate and
sort lexicographically (code-point order, as Python string comparison). -/
def sortDedup (l : List Str) : List Str :=
  (l.dedup).insertionSort (· ≤ ·)

/-- `extract_skills` from `backend/nlp.py`: substring pass over the
normalized text unioned with a token pass over the raw text, returned
sorted. -/
def extract_skills (text : Str) (skills_list : List Str := COMMON_SKILLS) : List Str :=
  let t := normalize_text text
  let foundSub := skills_list.filter (fun skill => strContains t skill)
  let foundTok := (pyTokens text).map (fun tok => tok.map Char.toLower)
    |>.filter (fun tok => skills_list.contains tok)
  sortDedup (foundSub ++ foundTok)

/-- Python's `round` to the nearest integer, ties to even (model over `ℚ`). -/
def roundHalfEven (q : ℚ) : ℤ :=
  let f := Rat.floor q
  let r := q - (f : ℚ)
  if r < 1/2 then f
  else if 1/2 < r then f + 1
  else if 2 ∣ f then f else f + 1

/-- Python's `round(x, 2)` (model over `ℚ`). -/
def round2 (q : ℚ) : ℚ := (roundHalfEven (q * 100) : ℚ) / 100

/-- `compute_match` from `backend/nlp.py`:
`0.0` for an empty job list, else
`round(len(set(R) ∩ set(J)) / max(1, len(set(J))) * 100, 2)`. -/
def compute_match (skills_resume skills_job : List Str) : ℚ :=
  if skills_job.isEmpty then 0
  else
    let setJ := skills_job.dedup
    let matched := setJ.filter (fun x => skills_resume.contains x)
    round2 ((matched.length : ℚ) / (max 1 setJ.length : ℕ) * 100)

/-- Comma-space join, model of `", ".join(...)`. -/
def commaJoin (l : List Str) : Str := List.intercalate (", ".toList) l

/-- The single-quote character (U+0027). -/
def squote : Char := Char.ofNat 39

/-- `heuristic_suggestions` from `backend/nlp.py`. -/
def heuristic_suggestions (skills_resume skills_job : List Str) : List Str :=
  let missing := skills_job.filter (fun x => !skills_resume.contains x)
  (if missing.isEmpty then [] else
    ["Skills to add or highlight: ".toList ++ commaJoin (sortDedup missing)]) ++
  ["Quantify achievements (e.g., reduced latency by 30%, processed X records).".toList,
   "Add a short ".toList ++ [squote] ++ "Key Projects".toList ++ [squote] ++
     " section with tech stack and outcomes.".toList] ++
  (if skills_job.contains ("machine learning".toList) || skills_job.contains ("nlp".toList) then
    ["Include datasets, model performance metrics (accuracy/F1), and deployment details.".toList]
  else [])

/-! ## Provider layer

The remote calls are modelled by an environment `Env` holding the
credential configuration and, as an oracle, the decoded response of each
provider: `gemini_net = some v` means the HTTP POST succeeded (2xx) and
`resp.json()` produced the Python value `v`; `gemini_net = none` covers
every network/timeout/non-2xx/undecodable-body failure (all of which
raise and reach the provider's outer exception handler). Likewise
`openai_net` holds the value of `resp.choices[0].message.get("content","")`,
with `none` for any exception during the call.

Python values decoded from JSON are modelled by `JVal` (JSON numbers are
restricted to integers; floating-point literals are outside the model). -/

inductive JVal where
  | null
  | bool (b : Bool)
  | int (n : ℤ)
  | str (s : Str)
  | arr (xs : List JVal)
  | obj (kvs : List (Str × JVal))

/-- Python truthiness of a decoded JSON value. -/
def jvTruthy : JVal → Bool
  | .null => false
  | .bool b => b
  | .int n => decide (n ≠ 0)
  | .str s => !s.isEmpty
  | .arr xs => !xs.isEmpty
  | .obj kvs => !kvs.isEmpty

/-- Python `dict` lookup (last binding wins, as for duplicate JSON keys). -/
def dictGet (kvs : List (Str × JVal)) (k : Str) : Option JVal :=
  (kvs.reverse.find? (fun p => p.1 == k)).map (fun p => p.2)

/-- Is the JVal a Python `str`? (`isinstance(x, str)` after decoding). -/
def jvIsStr : JVal → Bool
  | .str _ => true
  | _ => false

/-- Hexadecimal digit of a number below 16. -/
def hexDigit (n : Nat) : Char :=
  if n < 10 then Char.ofNat (48 + n) else Char.ofNat (87 + n)

/-- Four-digit hexadecimal rendering, for `\uXXXX` escapes. -/
def hex4 (n : Nat) : Str :=
  [hexDigit (n / 4096 % 16), hexDigit (n / 256 % 16), hexDigit (n / 16 % 16), hexDigit (n % 16)]

/-- Escaping used by Python `repr` on strings (approximation: common
escapes only; exotic code points are rendered as `\uXXXX`). -/
def pyEscapeSingle (s : Str) : Str :=
  s.flatMap (fun c =>
    if c = '\\' then ['\\', '\\']
    else if c = squote then ['\\', squote]
    else if c = '\n' then ['\\', 'n']
    else if c = '\x0d' then ['\\', 'r']
    else if c = '\t' then ['\\', 't']
    else if c.toNat < 32 then ['\\', 'u'] ++ hex4 c.toNat
    else [c])

mutual

/-- Model of Python `repr` on values decoded from JSON. -/
def pyRepr : JVal → Str
  | .null => "None".toList
  | .bool true => "True".toList
  | .bool false => "False".toList
  | .int n => (toString n).toList
  | .str s => [squote] ++ pyEscapeSingle s ++ [squote]
  | .arr xs => "[".toList ++ commaJoin (pyReprList xs) ++ "]".toList
  | .obj kvs => "\x7b".toList ++ commaJoin (pyReprPairs kvs) ++ "\x7d".toList

/-- `repr` of each element of a Python list. -/
def pyReprList : List JVal → List Str
  | [] => []
  | x :: xs => pyRepr x :: pyReprList xs

/-- `repr` of each `key: value` entry of a Python dict. -/
def pyReprPairs : List (Str × JVal) → List Str
  | [] => []
  | (k, v) :: xs =>
    ([squote] ++ pyEscapeSingle k ++ [squote] ++ ": ".toList ++ pyRepr v) :: pyReprPairs xs

end

/-- Model of Python `str()` on values decoded from JSON. -/
def pyStr (v : JVal) : Str :=
  match v with
  | .str s => s
  | _ => pyRepr v

/-- JSON string escaping as by `json.dumps` (default `ensure_ascii`;
astral code points approximated by a single `\uXXXX`). -/
def jsonEscape (s : Str) : Str :=
  s.flatMap (fun c =>
    if c = '"' then ['\\', '"']
    else if c = '\\' then ['\\', '\\']
    else if c = '\n' then ['\\', 'n']
    else if c = '\x0d' then ['\\', 'r']
    else if c = '\t' then ['\\', 't']
    else if c = '\x08' then ['\\', 'b']
    else if c = '\x0c' then ['\\', 'f']
    else if c.toNat < 32 || c.toNat > 126 then ['\\', 'u'] ++ hex4 c.toNat
    else [c])

mutual

/-- Model of `json.dumps` with its default separators. -/
def jsonDumps : JVal → Str
  | .null => "null".toList
  | .bool true => "true".toList
  | .bool false => "false".toList
  | .int n => (toString n).toList
  | .str s => ['"'] ++ jsonEscape s ++ ['"']
  | .arr xs => "[".toList ++ commaJoin (jsonDumpsList xs) ++ "]".toList
  | .obj kvs => "\x7b".toList ++ commaJoin (jsonDumpsPairs kvs) ++ "\x7d".toList

/-- `json.dumps` of each element of a list. -/
def jsonDumpsList : List JVal → List Str
  | [] => []
  | x :: xs => jsonDumps x :: jsonDumpsList xs

/-- `json.dumps` of each `"key": value` entry of a dict. -/
def jsonDumpsPairs : List (Str × JVal) → List Str
  | [] => []
  | (k, v) :: xs =>
    (['"'] ++ jsonEscape k ++ ['"'] ++ ": ".toList ++ jsonDumps v) :: jsonDumpsPairs xs

end

/-! ### `json.loads` model

A recursive-descent parser for JSON restricted to the `JVal` grammar
(numbers must be integers without fraction or exponent; a fractional
number makes the parse fail in the model). `Except Unit` models the
`json.JSONDecodeError` raised on malformed input. -/

/-- Whitespace accepted between JSON tokens. -/
def jsonWsChar (c : Char) : Bool :=
  c = ' ' || c = '\t' || c = '\n' || c = '\x0d'

/-- Value of a hexadecimal digit. -/
def hexVal (c : Char) : Option Nat :=
  if '0' ≤ c && c ≤ '9' then some (c.toNat - 48)
  else if 'a' ≤ c && c ≤ 'f' then some (c.toNat - 87)
  else if 'A' ≤ c && c ≤ 'F' then some (c.toNat - 55)
  else none

/-- Parse the body of a JSON string after the opening quote; returns the
decoded content and the input remaining after the closing quote. -/
def parseJStringAux : Nat → Str → Str → Except Unit (Str × Str)
  | 0, _, _ => .error ()
  | _ + 1, [], _ => .error ()
  | fuel + 1, c :: rest, acc =>
    if c = '"' then .ok (acc.reverse, rest)
    else if c = '\\' then
      match rest with
      | [] => .error ()
      | e :: rest2 =>
        if e = '"' then parseJStringAux fuel rest2 ('"' :: acc)
        else if e = '\\' then parseJStringAux fuel rest2 ('\\' :: acc)
        else if e = '/' then parseJStringAux fuel rest2 ('/' :: acc)
        else if e = 'b' then parseJStringAux fuel rest2 ('\x08' :: acc)
        else if e = 'f' then parseJStringAux fuel rest2 ('\x0c' :: acc)
        else if e = 'n' then parseJStringAux fuel rest2 ('\n' :: acc)
        else if e = 'r' then parseJStringAux fuel rest2 ('\x0d' :: acc)
        else if e = 't' then parseJStringAux fuel rest2 ('\t' :: acc)
        else if e = 'u' then
          match rest2 with
          | h1 :: h2 :: h3 :: h4 :: rest3 =>
            match hexVal h1, hexVal h2, hexVal h3, hexVal h4 with
            | some a, some b, some c', some d =>
              parseJStringAux fuel rest3 (Char.ofNat (a * 4096 + b * 256 + c' * 16 + d) :: acc)
            | _, _, _, _ => .error ()
          | _ => .error ()
        else .error ()
    else if c.toNat < 32 then .error ()
    else parseJStringAux fuel rest (c :: acc)

/-- JSON digits to the numeric value. -/
def digitsToNat (l : Str) : Nat :=
  l.foldl (fun acc c => acc * 10 + (c.toNat - 48)) 0

mutual

/-- Parse one JSON value; returns it and the remaining input. -/
def parseJVal : Nat → Str → Except Unit (JVal × Str)
  | 0, _ => .error ()
  | fuel + 1, s =>
    match s.dropWhile jsonWsChar with
    | [] => .error ()
    | c :: rest =>
      if c = 'n' then
        if ("ull".toList).isPrefixOf rest then .ok (.null, rest.drop 3) else .error ()
      else if c = 't' then
        if ("rue".toList).isPrefixOf rest then .ok (.bool true, rest.drop 3) else .error ()
      else if c = 'f' then
        if ("alse".toList).isPrefixOf rest then .ok (.bool false, rest.drop 4) else .error ()
      else if c = '"' then
        match parseJStringAux (rest.length + 1) rest [] with
        | .ok (content, rest2) => .ok (.str content, rest2)
        | .error _ => .error ()
      else if c = '[' then
        match rest.dropWhile jsonWsChar with
        | ']' :: rest2 => .ok (.arr [], rest2)
        | _ =>
          match parseJArrItems fuel rest with
          | .ok (xs, rest2) => .ok (.arr xs, rest2)
          | .error _ => .error ()
      else if c = '\x7b' then
        match rest.dropWhile jsonWsChar with
        | '\x7d' :: rest2 => .ok (.obj [], rest2)
        | _ =>
          match parseJObjItems fuel rest with
          | .ok (kvs, rest2) => .ok (.obj kvs, rest2)
          | .error _ => .error ()
      else
        let (neg, s2) := if c = '-' then (true, rest) else (false, c :: rest)
        let digits := s2.takeWhile Char.isDigit
        let rest2 := s2.dropWhile Char.isDigit
        if digits.isEmpty then .error ()
        else if 2 ≤ digits.length && digits.head? = some '0' then .error ()
        else
          match rest2 with
          | '.' :: _ => .error ()
          | 'e' :: _ => .error ()
          | 'E' :: _ => .error ()
          | _ =>
            let n : ℤ := digitsToNat digits
            .ok (.int (if neg then -n else n), rest2)

/-- Parse the comma-separated items of a non-empty JSON array (after `[`). -/
def parseJArrItems : Nat → Str → Except Unit (List JVal × Str)
  | 0, _ => .error ()
  | fuel + 1, s =>
    match parseJVal fuel s with
    | .error _ => .error ()
    | .ok (v, rest) =>
      match rest.dropWhile jsonWsChar with
      | ']' :: rest2 => .ok ([v], rest2)
      | ',' :: rest2 =>
        match parseJArrItems fuel rest2 with
        | .ok (xs, rest3) => .ok (v :: xs, rest3)
        | .error _ => .error ()
      | _ => .error ()

/-- Parse the comma-separated entries of a non-empty JSON object (after
the opening brace). -/
def parseJObjItems : Nat → Str → Except Unit (List (Str × JVal) × Str)
  | 0, _ => .error ()
  | fuel + 1, s =>
    match s.dropWhile jsonWsChar with
    | '"' :: rest =>
      match parseJStringAux (rest.length + 1) rest [] with
      | .error _ => .error ()
      | .ok (k, rest2) =>
        match rest2.dropWhile jsonWsChar with
        | ':' :: rest3 =>
          match parseJVal fuel rest3 with
          | .error _ => .error ()
          | .ok (v, rest4) =>
            match rest4.dropWhile jsonWsChar with
            | '\x7d' :: rest5 => .ok ([(k, v)], rest5)
            | ',' :: rest5 =>
              match parseJObjItems fuel rest5 with
              | .ok (kvs, rest6) => .ok ((k, v) :: kvs, rest6)
              | .error _ => .error ()
            | _ => .error ()
        | _ => .error ()
    | _ => .error ()

end

/-- Model of `json.loads`. -/
def jsonLoads (s : Str) : Except Unit JVal :=
  match parseJVal (s.length + 2) s with
  | .error _ => .error ()
  | .ok (v, rest) =>
    if (rest.dropWhile jsonWsChar).isEmpty then .ok v else .error ()

/-- Environment-sourced credentials (values of `os.getenv`) plus the
network oracle for each remote provider. -/
structure Env where
  google_api_key : Option Str
  gemini_api_key : Option Str
  openai_module : Bool
  openai_api_key : Option Str
  gemini_net : Option JVal
  openai_net : Option JVal

/-- Python truthiness of an `os.getenv` result (`None` and `""` are
falsy). -/
def envTruthy (o : Option Str) : Bool :=
  match o with
  | none => false
  | some s => !s.isEmpty

/-- Bullet glyphs of the regex `^[\-\*•]+\s*`. -/
def isBulletChar (c : Char) : Bool :=
  c = '-' || c = '*' || c = Char.ofNat 0x2022

/-- Line-break characters recognized by Python `str.splitlines`. -/
def isLineBreak (c : Char) : Bool :=
  c = '\n' || c = '\x0d' || c = '\x0b' || c = '\x0c' ||
    c = '\x1c' || c = '\x1d' || c = '\x1e' || c = '\x85' ||
    c = Char.ofNat 0x2028 || c = Char.ofNat 0x2029

/-- Model of Python `str.splitlines()` (`\r\n` is a single break; a
trailing break adds no empty line). -/
def pySplitlinesAux : Str → Str → List Str
  | [], acc => if acc.isEmpty then [] else [acc.reverse]
  | '\x0d' :: '\n' :: rest, acc => acc.reverse :: pySplitlinesAux rest []
  | c :: rest, acc =>
    if isLineBreak c then acc.reverse :: pySplitlinesAux rest []
    else pySplitlinesAux rest (c :: acc)

/-- Python `str.splitlines()`. -/
def pySplitlines (s : Str) : List Str := pySplitlinesAux s []

/-- Strip a leading bullet run, model of
`re.sub(r"^[\-\*•]+\s*", "", line)`. -/
def stripBulletPrefix (l : Str) : Str :=
  match l with
  | [] => []
  | c :: _ =>
    if isBulletChar c then (l.dropWhile isBulletChar).dropWhile pyIsSpace
    else l

/-- The line-split fallback inside `call_gemini_suggestions`: strip each
line, skip empty ones, remove a leading bullet glyph, keep at most 7. -/
def geminiSplitClean (s : Str) : List Str :=
  ((((pySplitlines s).map stripWs).filter (fun l => !l.isEmpty)).map stripBulletPrefix).take 7

/-- The `text_out` extraction of `call_gemini_suggestions`: probe the
decoded response `data` for the known response-shape variants.
`Except Unit` models an exception escaping to the provider's outer
handler (e.g. `.get` on a non-dict candidate, or `"\n".join` over a
non-string piece). -/
def geminiExtractText (data : JVal) : Except Unit JVal := do
  match data with
  | .obj kvs =>
    let t1 : JVal ←
      match dictGet kvs ("candidates".toList) with
      | some (.arr (c0 :: _)) =>
        match c0 with
        | .obj m =>
          let a := (dictGet m ("output".toList)).getD JVal.null
          let b := (dictGet m ("content".toList)).getD JVal.null
          pure (if jvTruthy a then a else b)
        | _ => throw ()
      | _ => pure JVal.null
    let t2 : JVal ←
      if jvTruthy t1 then pure t1
      else
        match dictGet kvs ("output".toList) with
        | some (.obj om) =>
          let a := (dictGet om ("text".toList)).getD JVal.null
          let b := (dictGet om ("content".toList)).getD JVal.null
          pure (if jvTruthy a then a else b)
        | some (.arr items) =>
          if items.isEmpty then pure t1
          else
            let pieces := items.map (fun item =>
              match item with
              | .obj m => (dictGet m ("content".toList)).getD (JVal.str [])
              | other => JVal.str (pyStr other))
            if pieces.all jvIsStr then
              pure (JVal.str (List.intercalate ("\n".toList)
                (pieces.map (fun p => match p with | .str s => s | _ => []))))
            else throw ()
        | _ => pure t1
    if jvTruthy t2 then pure t2
    else
      let a := (dictGet kvs ("text".toList)).getD JVal.null
      let b := (dictGet kvs ("content".toList)).getD JVal.null
      pure (if jvTruthy a then a
        else if jvTruthy b then b
        else JVal.str (jsonDumps data))
  | other => pure (JVal.str (pyStr other))

/-- The tail of `call_gemini_suggestions` after `text_out` is computed:
parse it as a JSON array (returning the stringified elements), fall back
to line splitting when the parse raises, and fall off the end of the
function — Python `None`, modelled `none` — when it parses to a
non-list. A non-string `text_out` raises out of both branches. -/
def geminiPostprocess (text_out : JVal) : Except Unit (Option (List Str)) :=
  match text_out with
  | .str s =>
    match jsonLoads s with
    | .ok (.arr xs) => .ok (some (xs.map pyStr))
    | .ok _ => .ok none
    | .error _ => .ok (some (geminiSplitClean s))
  | _ => .error ()

/-- `call_gemini_suggestions` from `backend/nlp.py`. The Python function
can return a list of strings or fall off the end (`None`), hence
`Option`; the resume and job texts only shape the prompt, not the
result. -/
def call_gemini_suggestions (env : Env) (_resume _job : Str) : Option (List Str) :=
  if !(envTruthy env.google_api_key || envTruthy env.gemini_api_key) then some []
  else
    match env.gemini_net with
    | none => some []
    | some data =>
      match geminiExtractText data >>= geminiPostprocess with
      | .ok r => r
      | .error _ => some []

/-- Characters stripped by `l.strip("-* \t")` in `call_openai_suggestions`. -/
def isOpenaiStripChar (c : Char) : Bool :=
  c = '-' || c = '*' || c = ' ' || c = '\t'

/-- `l.strip("-* \t")`: remove those characters from both ends. -/
def stripOpenaiChars (l : Str) : Str :=
  ((l.dropWhile isOpenaiStripChar).reverse.dropWhile isOpenaiStripChar).reverse

/-- The line-split fallback inside `call_openai_suggestions`:
`[l.strip("-* \t") for l in text.splitlines() if l.strip()][:7]`. -/
def openaiSplitClean (s : Str) : List Str :=
  (((pySplitlines s).filter (fun l => !(stripWs l).isEmpty)).map stripOpenaiChars).take 7

/-- `call_openai_suggestions` from `backend/nlp.py`. When the content
parses as a JSON array the raw decoded values are returned (`return
data`, no string conversion); a parse failure is swallowed by the
`except` and yields `[]`. -/
def call_openai_suggestions (env : Env) (_resume _job : Str) : List JVal :=
  if !(env.openai_module && envTruthy env.openai_api_key) then []
  else
    match env.openai_net with
    | none => []
    | some content =>
      match content with
      | .str s =>
        match jsonLoads s with
        | .ok (.arr xs) => xs
        | .ok _ => (openaiSplitClean s).map JVal.str
        | .error _ => []
      | _ => []

/-- Truthiness of the running `suggestions` value in
`analyze_resume_and_job` (`None` and `[]` are falsy). -/
def pyFalsySugg (o : Option (List JVal)) : Bool :=
  match o with
  | none => true
  | some l => l.isEmpty

/-- The aggregate output record of `analyze_resume_and_job`. -/
structure AnalysisResult where
  skills_resume : List Str
  skills_job : List Str
  match_score : ℚ
  suggestions : List JVal
  short_summary : Str

/-- Decimal rendering of a count for the summary line. -/
def natStr (n : Nat) : Str := (toString n).toList

/-- `analyze_resume_and_job` from `backend/nlp.py`, instrumented: the two
extra Booleans record whether the Gemini call and the OpenAI call were
made (for the chain-precedence property). Inputs are `Option Str` to
model `resume_text or ""`. -/
def analyze_resume_and_job (env : Env) (resume_text job_description : Option Str) :
    AnalysisResult × Bool × Bool :=
  let resume := resume_text.getD []
  let job := job_description.getD []
  let skills_resume := extract_skills resume
  let skills_job := extract_skills job
  let match_score := compute_match skills_resume skills_job
  let geminiTried := envTruthy env.google_api_key || envTruthy env.gemini_api_key
  let s1 : Option (List JVal) :=
    if geminiTried then (call_gemini_suggestions env resume job).map (fun l => l.map JVal.str)
    else some []
  let openaiTried := pyFalsySugg s1 && env.openai_module && envTruthy env.openai_api_key
  let s2 := if openaiTried then some (call_openai_suggestions env resume job) else s1
  let suggestions :=
    if pyFalsySugg s2 then (heuristic_suggestions skills_resume skills_job).map JVal.str
    else s2.getD []
  (⟨skills_resume, skills_job, match_score, suggestions,
    "Resume contains ".toList ++ natStr skills_resume.length ++
      " recognized skills. Job requires ".toList ++ natStr skills_job.length ++
      " recognized skills.".toList⟩,
   geminiTried, openaiTried)

/-! ## Further definitions used by the specification statements -/

/-- The character set the specification allows in `normalize` output:
`{a-z, 0-9, space, +, #, ., -}`. -/
def allowedOut (c : Char) : Bool :=
  ('a' ≤ c && c ≤ 'z') || ('0' ≤ c && c ≤ '9') || c = ' ' ||
    c = '+' || c = '#' || c = '.' || c = '-'

/-- Example 1 resume text from the specification. -/
def ex1Resume : Str := "Experienced Python and React developer, used Docker and AWS.".toList

/-- Example 1 job text from the specification. -/
def ex1Job : Str := "Looking for Python, Django, Docker, Kubernetes.".toList

/-- Environment with no provider configured. -/
def envNone : Env := ⟨none, none, false, none, none, none⟩

/-- Gemini configured; the HTTP call succeeds and the response body is the
empty JSON object `{}`. -/
def envGeminiEmptyBody : Env :=
  ⟨some ("key".toList), none, false, none, some (JVal.obj []), none⟩

/-- OpenAI configured; the chat completion content is a JSON array with
eight elements. -/
def envOpenaiArray8 : Env :=
  ⟨none, none, true, some ("key".toList), none,
    some (JVal.str ("[1, 2, 3, 4, 5, 6, 7, 8]".toList))⟩

/-- Does a decoded suggestion value mention the given needle string? -/
def jvalMentions (needle : Str) : JVal → Bool
  | .str s => strContains s needle
  | _ => false

/-- OpenAI configured and Gemini not configured; OpenAI answers with a
one-element JSON array. -/
def envOpenaiOnly : Env :=
  ⟨none, none, true, some ("key".toList), none,
    some (JVal.str ("[\"x\"]".toList))⟩

/-! ## Character-class lemmas -/

theorem char_eq_of_toNat {c d : Char} (h : c.toNat = d.toNat) : c = d :=
  Char.ext (UInt32.toNat.inj h)

theorem allowedOut_toNat {c : Char} (h : allowedOut c = true) :
    (97 ≤ c.toNat ∧ c.toNat ≤ 122) ∨ (48 ≤ c.toNat ∧ c.toNat ≤ 57) ∨
      c.toNat = 32 ∨ c.toNat = 43 ∨ c.toNat = 35 ∨ c.toNat = 46 ∨ c.toNat = 45 := by
  simp only [allowedOut, Bool.or_eq_true, Bool.and_eq_true, decide_eq_true_eq] at h
  rcases h with ((((((h | h) | h) | h) | h) | h) | h)
  · exact Or.inl h
  · exact Or.inr (Or.inl h)
  · exact Or.inr (Or.inr (Or.inl (by rw [h]; decide)))
  · exact Or.inr (Or.inr (Or.inr (Or.inl (by rw [h]; decide))))
  · exact Or.inr (Or.inr (Or.inr (Or.inr (Or.inl (by rw [h]; decide)))))
  · exact Or.inr (Or.inr (Or.inr (Or.inr (Or.inr (Or.inl (by rw [h]; decide))))))
  · exact Or.inr (Or.inr (Or.inr (Or.inr (Or.inr (Or.inr (by rw [h]; decide))))))

theorem pyIsSpace_toNat {c : Char} (h : pyIsSpace c = true) :
    c.toNat = 32 ∨ c.toNat = 9 ∨ c.toNat = 10 ∨ c.toNat = 13 ∨
      c.toNat = 11 ∨ c.toNat = 12 := by
  simp only [pyIsSpace, Bool.or_eq_true, decide_eq_true_eq] at h
  rcases h with ((((h | h) | h) | h) | h) | h <;> rw [h]
  · exact Or.inl (by decide)
  · exact Or.inr (Or.inl (by decide))
  · exact Or.inr (Or.inr (Or.inl (by decide)))
  · exact Or.inr (Or.inr (Or.inr (Or.inl (by decide))))
  · exact Or.inr (Or.inr (Or.inr (Or.inr (Or.inl (by decide)))))
  · exact Or.inr (Or.inr (Or.inr (Or.inr (Or.inr (by decide)))))

theorem allowedOut_of_keep_not_space {c : Char}
    (hk : keepChar c = true) (hs : pyIsSpace c = false) : allowedOut c = true := by
  simp only [keepChar, hs, Bool.or_eq_true, Bool.and_eq_true, decide_eq_true_eq,
    Bool.false_eq_true, or_false, false_or] at hk
  simp only [allowedOut, Bool.or_eq_true, Bool.and_eq_true, decide_eq_true_eq]
  tauto

theorem allowedOut_not_upper {c : Char} (h : allowedOut c = true) :
    ¬(65 ≤ c.toNat ∧ c.toNat ≤ 90) := by
  have := allowedOut_toNat h
  omega

theorem toLower_fixed_of_allowed {c : Char} (h : allowedOut c = true) :
    c.toLower = c := by
  have hn := allowedOut_not_upper h
  show (let n := c.toNat; if n ≥ 65 ∧ n ≤ 90 then Char.ofNat (n + 32) else c) = c
  simp only []
  rw [if_neg]
  exact fun hh => hn ⟨hh.1, hh.2⟩

theorem keep_of_allowed {c : Char} (h : allowedOut c = true) : keepChar c = true := by
  simp only [allowedOut, Bool.or_eq_true, Bool.and_eq_true, decide_eq_true_eq] at h
  simp only [keepChar, Bool.or_eq_true, Bool.and_eq_true, decide_eq_true_eq]
  rcases h with ((((((h | h) | h) | h) | h) | h) | h)
  · tauto
  · tauto
  · subst h
    tauto
  · tauto
  · tauto
  · tauto
  · tauto

theorem space_of_allowed_ws {c : Char} (h : allowedOut c = true)
    (hws : pyIsSpace c = true) : c = ' ' := by
  have h1 := allowedOut_toNat h
  have h2 := pyIsSpace_toNat hws
  have h3 : c.toNat = 32 := by omega
  exact char_eq_of_toNat (h3.trans (by decide))

theorem not_upper_of_allowed {c : Char} (h : allowedOut c = true) :
    (!('A' ≤ c && c ≤ 'Z')) = true := by
  have h1 := allowedOut_toNat h
  simp only [Bool.not_eq_eq_eq_not, Bool.not_true, Bool.and_eq_false_imp,
    decide_eq_true_eq, decide_eq_false_iff_not]
  intro hc
  have hc' : 65 ≤ c.toNat := hc
  intro hz
  have hz' : c.toNat ≤ 90 := hz
  omega

/-! ## Normalization lemmas -/

theorem keepChar_normChar (c : Char) : keepChar (normChar c) = true := by
  unfold normChar
  simp only []
  by_cases h : keepChar c.toLower = true
  · simpa [h]
  · rw [if_neg h]
    decide

theorem normChar_fixed_of_allowed {c : Char} (h : allowedOut c = true) :
    normChar c = c := by
  unfold normChar
  simp only [toLower_fixed_of_allowed h, keep_of_allowed h, if_true]

theorem mem_collapseWs : ∀ l : Str, ∀ c ∈ collapseWs l,
    c = ' ' ∨ (c ∈ l ∧ pyIsSpace c = false)
  | [] => by simp [collapseWs]
  | [a] => by
    by_cases h : pyIsSpace a = true <;> intro c hc <;> simp [collapseWs, h] at hc
    · exact Or.inl hc
    · exact Or.inr ⟨by simp [hc], by rw [hc]; simpa using h⟩
  | a :: b :: rest => by
    intro c hc
    by_cases ha : pyIsSpace a = true
    · by_cases hb : pyIsSpace b = true
      · rw [collapseWs, if_pos ha, if_pos hb] at hc
        rcases mem_collapseWs (b :: rest) c hc with h | ⟨h1, h2⟩
        · exact Or.inl h
        · exact Or.inr ⟨List.mem_cons_of_mem a h1, h2⟩
      · rw [collapseWs, if_pos ha, if_neg hb] at hc
        rcases List.mem_cons.mp hc with h | h
        · exact Or.inl h
        · rcases mem_collapseWs (b :: rest) c h with h' | ⟨h1, h2⟩
          · exact Or.inl h'
          · exact Or.inr ⟨List.mem_cons_of_mem a h1, h2⟩
    · rw [collapseWs, if_neg ha] at hc
      rcases List.mem_cons.mp hc with h | h
      · exact Or.inr ⟨by simp [h], by rw [h]; simpa using ha⟩
      · rcases mem_collapseWs (b :: rest) c h with h' | ⟨h1, h2⟩
        · exact Or.inl h'
        · exact Or.inr ⟨List.mem_cons_of_mem a h1, h2⟩

theorem collapseWs_cons_not_ws {b : Char} (hb : pyIsSpace b = false) :
    ∀ t : Str, collapseWs (b :: t) = b :: collapseWs t
  | [] => by simp [collapseWs, hb]
  | d :: rest => by rw [collapseWs, if_neg (by simp [hb])]

theorem collapseWs_chain : ∀ l : Str,
    (collapseWs l).Chain' (fun a b => pyIsSpace a = false ∨ pyIsSpace b = false)
  | [] => by simp [collapseWs]
  | [a] => by by_cases h : pyIsSpace a = true <;> simp [collapseWs, h]
  | a :: b :: rest => by
    by_cases ha : pyIsSpace a = true
    · by_cases hb : pyIsSpace b = true
      · rw [collapseWs, if_pos ha, if_pos hb]
        exact collapseWs_chain (b :: rest)
      · have hbf : pyIsSpace b = false := by simpa using hb
        rw [collapseWs, if_pos ha, if_neg hb, collapseWs_cons_not_ws hbf rest]
        refine List.chain'_cons'.mpr ⟨?_, ?_⟩
        · intro y hy
          simp only [List.head?_cons, Option.mem_def, Option.some.injEq] at hy
          exact Or.inr (hy ▸ hbf)
        · rw [← collapseWs_cons_not_ws hbf rest]
          exact collapseWs_chain (b :: rest)
    · rw [collapseWs, if_neg ha]
      exact List.chain'_cons'.mpr ⟨fun y _ => Or.inl (by simpa using ha),
        collapseWs_chain (b :: rest)⟩

theorem collapseWs_id : ∀ l : Str,
    (∀ c ∈ l, pyIsSpace c = true → c = ' ') →
    l.Chain' (fun a b => pyIsSpace a = false ∨ pyIsSpace b = false) →
    collapseWs l = l
  | [], _, _ => rfl
  | [a], hc, _ => by
    by_cases h : pyIsSpace a = true
    · rw [collapseWs, if_pos h, (hc a (by simp) h)]
    · rw [collapseWs, if_neg h]
  | a :: b :: rest, hc, hch => by
    have htail : (b :: rest).Chain' (fun a b => pyIsSpace a = false ∨ pyIsSpace b = false) :=
      (List.chain'_cons'.mp hch).2
    have hctail : ∀ c ∈ b :: rest, pyIsSpace c = true → c = ' ' :=
      fun c hm => hc c (List.mem_cons_of_mem a hm)
    by_cases ha : pyIsSpace a = true
    · have hb : pyIsSpace b = false := by
        rcases (List.chain'_cons'.mp hch).1 b (by simp) with h | h
        · rw [ha] at h
          exact absurd h (by simp)
        · exact h
      rw [collapseWs, if_pos ha, if_neg (by simp [hb])]
      rw [collapseWs_id (b :: rest) hctail htail, hc a (by simp) ha]
    · rw [collapseWs, if_neg ha, collapseWs_id (b :: rest) hctail htail]

theorem head_dropWhile_not (p : Char → Bool) :
    ∀ l : Str, ∀ c, (l.dropWhile p).head? = some c → p c = false
  | [], c => by simp
  | a :: t, c => by
    by_cases h : p a = true
    · rw [List.dropWhile_cons_of_pos h]
      exact head_dropWhile_not p t c
    · rw [List.dropWhile_cons_of_neg h]
      intro hh
      simp only [List.head?_cons, Option.some.injEq] at hh
      rw [← hh]
      simpa using h

theorem dropWhile_id_of_head (p : Char → Bool) (l : Str)
    (h : ∀ c, l.head? = some c → p c = false) : l.dropWhile p = l := by
  cases l with
  | nil => rfl
  | cons a t =>
    rw [List.dropWhile_cons_of_neg]
    simp [h a rfl]

theorem stripWs_prefix_dropWhile (l : Str) :
    stripWs l <+: l.dropWhile pyIsSpace := by
  unfold stripWs
  have h := List.dropWhile_suffix (l := (l.dropWhile pyIsSpace).reverse) pyIsSpace
  have h2 : ((l.dropWhile pyIsSpace).reverse.dropWhile pyIsSpace).reverse.reverse <:+
      (l.dropWhile pyIsSpace).reverse := by simpa using h
  exact (List.reverse_suffix).mp h2

theorem stripWs_within (l : Str) : stripWs l <:+: l :=
  (stripWs_prefix_dropWhile l).isInfix.trans (List.dropWhile_suffix pyIsSpace).isInfix

theorem stripWs_head {l : Str} {c : Char} (h : (stripWs l).head? = some c) :
    pyIsSpace c = false := by
  rcases (stripWs_prefix_dropWhile l) with ⟨r, hr⟩
  have : (l.dropWhile pyIsSpace).head? = some c := by
    rw [← hr]
    cases hsw : stripWs l with
    | nil => rw [hsw] at h; simp at h
    | cons x xs =>
      rw [hsw] at h
      simp only [List.head?_cons, Option.some.injEq] at h
      simp [h]
  exact head_dropWhile_not pyIsSpace l c this

theorem stripWs_getLast {l : Str} {c : Char} (h : (stripWs l).getLast? = some c) :
    pyIsSpace c = false := by
  unfold stripWs at h
  rw [List.getLast?_reverse] at h
  exact head_dropWhile_not pyIsSpace (l.dropWhile pyIsSpace).reverse c h

theorem stripWs_id (l : Str)
    (hh : ∀ c, l.head? = some c → pyIsSpace c = false)
    (hl : ∀ c, l.getLast? = some c → pyIsSpace c = false) : stripWs l = l := by
  unfold stripWs
  rw [dropWhile_id_of_head pyIsSpace l hh]
  rw [dropWhile_id_of_head pyIsSpace l.reverse
    (fun c hc => hl c (by rwa [List.head?_reverse] at hc))]
  exact List.reverse_reverse l

theorem norm_mem_allowed {s : Str} {c : Char} (h : c ∈ normalize_text s) :
    allowedOut c = true := by
  unfold normalize_text at h
  have h1 : c ∈ collapseWs (s.map normChar) := (stripWs_within _).subset h
  rcases mem_collapseWs _ c h1 with h2 | ⟨h2, h3⟩
  · rw [h2]
    decide
  · rcases List.mem_map.mp h2 with ⟨c0, _, hc0⟩
    exact allowedOut_of_keep_not_space (hc0 ▸ keepChar_normChar c0) h3

theorem norm_chain (s : Str) :
    (normalize_text s).Chain' (fun a b => pyIsSpace a = false ∨ pyIsSpace b = false) :=
  List.Chain'.infix (collapseWs_chain (s.map normChar)) (stripWs_within _)

theorem norm_head {s : Str} {c : Char} (h : (normalize_text s).head? = some c) :
    pyIsSpace c = false := stripWs_head h

theorem norm_getLast {s : Str} {c : Char} (h : (normalize_text s).getLast? = some c) :
    pyIsSpace c = false := stripWs_getLast h

/-- C7: for every input string, `normalize_text` is total, lower-cases its
input (no uppercase letter survives), and its output contains only
characters from `{a-z, 0-9, space, +, #, ., -}`, has no two consecutive
spaces, no leading or trailing whitespace, and maps the empty string to
the empty string. -/
theorem normalize_text_output_charset : ∀ s : Str,
    (normalize_text s).all allowedOut = true ∧
    (normalize_text s).all (fun c => !('A' ≤ c && c ≤ 'Z')) = true ∧
    (normalize_text s).Chain' (fun a b => ¬(a = ' ' ∧ b = ' ')) ∧
    ((normalize_text s).head?.map pyIsSpace).getD false = false ∧
    ((normalize_text s).getLast?.map pyIsSpace).getD false = false ∧
    normalize_text [] = [] := by
  intro s
  refine ⟨?_, ?_, ?_, ?_, ?_, rfl⟩
  · exact List.all_eq_true.mpr (fun c hc => norm_mem_allowed hc)
  · exact List.all_eq_true.mpr (fun c hc => not_upper_of_allowed (norm_mem_allowed hc))
  · refine (norm_chain s).imp ?_
    intro a b hab ⟨ha, hb⟩
    rcases hab with h | h
    · rw [ha] at h
      exact absurd h (by decide)
    · rw [hb] at h
      exact absurd h (by decide)
  · cases hh : (normalize_text s).head? with
    | none => rfl
    | some c => simp [norm_head hh]
  · cases hh : (normalize_text s).getLast? with
    | none => rfl
    | some c => simp [norm_getLast hh]

/-- C10: `normalize_text` is idempotent. -/
theorem normalize_text_idempotent : ∀ s : Str,
    normalize_text (normalize_text s) = normalize_text s := by
  intro s
  have hall : ∀ c ∈ normalize_text s, allowedOut c = true :=
    fun c hc => norm_mem_allowed hc
  show stripWs (collapseWs ((normalize_text s).map normChar)) = normalize_text s
  rw [List.map_congr_left (fun c hc => normChar_fixed_of_allowed (hall c hc)),
    List.map_id']
  rw [collapseWs_id (normalize_text s)
    (fun c hc hws => space_of_allowed_ws (hall c hc) hws) (norm_chain s)]
  exact stripWs_id (normalize_text s) (fun c hc => norm_head hc)
    (fun c hc => norm_getLast hc)

/-! ## Extraction lemmas -/

theorem mem_sortDedup {x : Str} {l : List Str} : x ∈ sortDedup l ↔ x ∈ l := by
  unfold sortDedup
  rw [List.mem_insertionSort, List.mem_dedup]

theorem sortDedup_sorted (l : List Str) : (sortDedup l).Sorted (· ≤ ·) :=
  List.sorted_insertionSort _ _

theorem sortDedup_nodup (l : List Str) : (sortDedup l).Nodup :=
  ((List.perm_insertionSort _ _).nodup_iff).mpr l.nodup_dedup

theorem sortDedup_sorted_lt (l : List Str) : (sortDedup l).Sorted (· < ·) :=
  ((sortDedup_sorted l).and (sortDedup_nodup l)).imp
    (fun h => lt_of_le_of_ne h.1 h.2)

/-- C6: `extract_skills` always returns a duplicate-free, lexicographically
sorted subset of the taxonomy; an empty taxonomy yields an empty result
(totality is immediate from the model being a function). -/
theorem extract_skills_invariants : ∀ (t : Str) (T : List Str),
    (extract_skills t T).all (fun s => T.contains s) = true ∧
    (extract_skills t T).Sorted (· < ·) ∧
    (extract_skills t T).Nodup ∧
    extract_skills t [] = [] := by
  intro t T
  refine ⟨?_, sortDedup_sorted_lt _, sortDedup_nodup _, ?_⟩
  · apply List.all_eq_true.mpr
    intro x hx
    rcases List.mem_append.mp (mem_sortDedup.mp hx) with h | h
    · exact List.elem_eq_true_of_mem (List.mem_filter.mp h).1
    · exact (List.mem_filter.mp h).2
  · show sortDedup (List.filter _ [] ++
      List.filter (fun tok => List.contains [] tok) (List.map _ (pyTokens t))) = []
    simp [sortDedup]

theorem strContains_iff_sub : ∀ hay needle : Str,
    (strContains hay needle = true ↔ needle <:+: hay)
  | [], needle => by
    rw [strContains]
    simp [List.isEmpty_iff]
  | a :: rest, needle => by
    rw [strContains]
    rw [Bool.or_eq_true, List.isPrefixOf_iff_prefix,
      strContains_iff_sub rest needle, List.infix_cons_iff]

/-- C2: membership in `extract_skills t T` is exactly the union of the
substring pass (a taxonomy entry occurring inside the normalized text)
and the token pass (a maximal letter/`+`/`#` run of length ≥ 2 of the raw
text whose lower-casing is a taxonomy member); in particular a resume
containing `C++` and `C#` yields both `c++` and `c#`. -/
theorem extract_skills_membership : ∀ (t : Str) (T : List Str) (s : Str),
    (s ∈ extract_skills t T ↔
      (s ∈ T ∧ s <:+: normalize_text t) ∨
      (∃ tok, tok ∈ pyTokens t ∧ tok.map Char.toLower = s ∧ s ∈ T)) ∧
    ("c++".toList ∈ extract_skills ("Developed in C++ and C#".toList)) ∧
    ("c#".toList ∈ extract_skills ("Developed in C++ and C#".toList)) := by
  intro t T s
  refine ⟨?_, by decide, by decide⟩
  unfold extract_skills
  rw [mem_sortDedup, List.mem_append]
  constructor
  · rintro (h | h)
    · rcases List.mem_filter.mp h with ⟨h1, h2⟩
      exact Or.inl ⟨h1, (strContains_iff_sub _ _).mp h2⟩
    · rcases List.mem_filter.mp h with ⟨h1, h2⟩
      rcases List.mem_map.mp h1 with ⟨tok, ht, rfl⟩
      exact Or.inr ⟨tok, ht, rfl, List.mem_of_elem_eq_true h2⟩
  · rintro (⟨h1, h2⟩ | ⟨tok, ht, rfl, h3⟩)
    · exact Or.inl (List.mem_filter.mpr ⟨h1, (strContains_iff_sub _ _).mpr h2⟩)
    · exact Or.inr (List.mem_filter.mpr
        ⟨List.mem_map.mpr ⟨tok, ht, rfl⟩, List.elem_eq_true_of_mem h3⟩)

/-! ## Match-scorer lemmas -/

theorem dedup_filter_length_eq_card_inter (R J : List Str) :
    (J.dedup.filter (fun x => R.contains x)).length =
      (J.toFinset ∩ R.toFinset).card := by
  have hnd : (J.dedup.filter (fun x => R.contains x)).Nodup :=
    J.nodup_dedup.filter _
  rw [← List.toFinset_card_of_nodup hnd]
  congr 1
  ext a
  simp only [List.mem_toFinset, List.mem_filter, List.mem_dedup, Finset.mem_inter]
  constructor
  · rintro ⟨h1, h2⟩
    exact ⟨h1, List.mem_of_elem_eq_true h2⟩
  · rintro ⟨h1, h2⟩
    exact ⟨h1, List.elem_eq_true_of_mem h2⟩

theorem dedup_length_pos {J : List Str} (h : J ≠ []) : 1 ≤ J.dedup.length := by
  cases J with
  | nil => exact absurd rfl h
  | cons a t =>
    have ha : a ∈ (a :: t).dedup := List.mem_dedup.mpr (by simp)
    exact List.length_pos.mpr (List.ne_nil_of_mem ha)

/-- C1: `compute_match` returns 0 on an empty job list and otherwise
`round(|set(R) ∩ set(J)| / |set(J)| * 100, 2)`; on Example 1 with no
provider configured the score is 66.67, and an empty job description
gives 0.0 regardless of the resume. -/
theorem compute_match_spec :
    (∀ R J : List Str, compute_match R J =
      if J = [] then 0
      else round2 (((J.toFinset ∩ R.toFinset).card : ℚ) / (J.toFinset.card : ℚ) * 100)) ∧
    (analyze_resume_and_job envNone (some ex1Resume) (some ex1Job)).1.match_score = 6667/100 ∧
    (∀ resume : Option Str,
      (analyze_resume_and_job envNone resume (some [])).1.match_score = 0) := by
  refine ⟨?_, by with_unfolding_all rfl, ?_⟩
  · intro R J
    unfold compute_match
    by_cases hJ : J = []
    · subst hJ
      simp
    · rw [if_neg (by simpa [List.isEmpty_iff] using hJ), if_neg hJ]
      simp only []
      rw [dedup_filter_length_eq_card_inter,
        Nat.max_eq_right (dedup_length_pos hJ), List.card_toFinset]
  · intro resume
    show compute_match (extract_skills (resume.getD [])) (extract_skills []) = 0
    rw [show extract_skills [] = [] from by decide]
    rfl

theorem ratFloor_eq_intFloor (q : ℚ) : Rat.floor q = ⌊q⌋ := by
  rw [Rat.floor_def', Rat.floor_def]

theorem rhe_ge_floor (q : ℚ) : ⌊q⌋ ≤ roundHalfEven q := by
  simp only [roundHalfEven, ratFloor_eq_intFloor]
  split_ifs <;> omega

theorem rhe_le_floor_succ (q : ℚ) : roundHalfEven q ≤ ⌊q⌋ + 1 := by
  simp only [roundHalfEven, ratFloor_eq_intFloor]
  split_ifs <;> omega

theorem rhe_mono {p q : ℚ} (h : p ≤ q) : roundHalfEven p ≤ roundHalfEven q := by
  rcases lt_or_eq_of_le (Int.floor_mono h) with hf | hf
  · have h1 := rhe_le_floor_succ p
    have h2 := rhe_ge_floor q
    omega
  · have h1 : p - (⌊p⌋ : ℚ) ≤ q - (⌊q⌋ : ℚ) := by
      rw [hf]
      linarith
    simp only [roundHalfEven, ratFloor_eq_intFloor, hf] at *
    split_ifs <;> first | omega | linarith

theorem round2_mono {p q : ℚ} (h : p ≤ q) : round2 p ≤ round2 q := by
  unfold round2
  have hm := rhe_mono (mul_le_mul_of_nonneg_right h (by norm_num : (0:ℚ) ≤ 100))
  have hc : ((roundHalfEven (p * 100) : ℚ)) ≤ ((roundHalfEven (q * 100) : ℚ)) := by
    exact_mod_cast hm
  gcongr

/-- C5 counterexample: the score is 0.0 for a non-empty job list with an
empty intersection, so "0.0 exactly when J is empty" fails. -/
theorem compute_match_zero_nonempty :
    compute_match [] ["python".toList] = 0 ∧ (["python".toList] : List Str) ≠ [] :=
  ⟨by with_unfolding_all rfl, by decide⟩

/-- C5 (amended): the score is 0.0 whenever the job list is empty — but
not only then: it is also 0.0 whenever no resume skill matches — and for
a fixed non-empty job list the score is monotone non-decreasing in the
matched count. -/
theorem compute_match_zero_and_monotone :
    (∀ R : List Str, compute_match R [] = 0) ∧
    (∀ R J : List Str, (J.dedup.filter (fun x => R.contains x)).isEmpty = true →
      compute_match R J = 0) ∧
    (∀ J R₁ R₂ : List Str, J ≠ [] →
      (J.dedup.filter (fun x => R₁.contains x)).length ≤
        (J.dedup.filter (fun x => R₂.contains x)).length →
      compute_match R₁ J ≤ compute_match R₂ J) := by
  refine ⟨fun R => rfl, ?_, ?_⟩
  · intro R J h
    unfold compute_match
    by_cases hJ : J.isEmpty = true
    · rw [if_pos hJ]
    · rw [if_neg hJ]
      simp only []
      rw [List.isEmpty_iff] at h
      rw [h]
      norm_num
      show round2 0 = 0
      with_unfolding_all rfl
  · intro J R₁ R₂ hJ hk
    unfold compute_match
    have hne : ¬J.isEmpty = true := by simpa [List.isEmpty_iff] using hJ
    rw [if_neg hne, if_neg hne]
    simp only []
    apply round2_mono
    have hn : (0 : ℚ) < ((max 1 J.dedup.length : ℕ) : ℚ) := by
      have h1 : 1 ≤ max 1 J.dedup.length := le_max_left _ _
      exact_mod_cast Nat.lt_of_lt_of_le Nat.zero_lt_one h1
    gcongr

theorem compute_match_zero_and_monotone_witness :
    compute_match [] ["python".toList] ≤
      compute_match ["python".toList] ["python".toList] ∧
    compute_match ([] : List Str) [] = 0 ∧
    compute_match ["aws".toList] ["python".toList] = 0 :=
  ⟨compute_match_zero_and_monotone.2.2 ["python".toList] [] ["python".toList]
      (by decide) (by decide),
   compute_match_zero_and_monotone.1 [],
   compute_match_zero_and_monotone.2.1 ["aws".toList] ["python".toList] (by decide)⟩

/-! ## Heuristic-suggestion lemmas -/

theorem sortDedup_eq_sort_toFinset (l : List Str) :
    sortDedup l = l.toFinset.sort (· ≤ ·) := by
  apply List.eq_of_perm_of_sorted _ (sortDedup_sorted l) (Finset.sort_sorted _ _)
  apply List.perm_of_nodup_nodup_toFinset_eq (sortDedup_nodup l) (Finset.sort_nodup _ _)
  rw [Finset.sort_toFinset]
  ext a
  simp only [List.mem_toFinset, mem_sortDedup]

theorem filter_not_contains_toFinset (R J : List Str) :
    (J.filter (fun x => !R.contains x)).toFinset = J.toFinset \ R.toFinset := by
  ext a
  simp only [List.mem_toFinset, List.mem_filter, Finset.mem_sdiff,
    Bool.not_eq_eq_eq_not, Bool.not_true]
  constructor
  · rintro ⟨h1, h2⟩
    refine ⟨h1, fun hm => ?_⟩
    have h3 : R.contains a = true := List.elem_eq_true_of_mem hm
    rw [h2] at h3
    exact absurd h3 (by simp)
  · rintro ⟨h1, h2⟩
    refine ⟨h1, ?_⟩
    cases hc : R.contains a with
    | false => rfl
    | true => exact absurd (List.mem_of_elem_eq_true hc) h2

theorem filter_not_contains_isEmpty (R J : List Str) :
    (J.filter (fun x => !R.contains x)).isEmpty = true ↔
      J.toFinset \ R.toFinset = ∅ := by
  rw [List.isEmpty_iff, ← filter_not_contains_toFinset R J]
  constructor
  · intro h
    rw [h]
    rfl
  · intro h
    have := List.toFinset_eq_empty_iff (J.filter (fun x => !R.contains x))
    exact this.mp h

/-- C8: `heuristic_suggestions` returns, in order, one suggestion listing
the sorted comma-joined missing skills when `J − R` is non-empty, then
the two fixed generic suggestions, then one machine-learning suggestion
exactly when the job skills contain `machine learning` or `nlp`; on
Example 1 (no provider configured) a suggestion line mentions
`kubernetes`. -/
theorem heuristic_suggestions_spec :
    (∀ R J : List Str, heuristic_suggestions R J =
      (if J.toFinset \ R.toFinset = ∅ then [] else
        ["Skills to add or highlight: ".toList ++
          commaJoin ((J.toFinset \ R.toFinset).sort (· ≤ ·))]) ++
      ["Quantify achievements (e.g., reduced latency by 30%, processed X records).".toList,
       "Add a short ".toList ++ [squote] ++ "Key Projects".toList ++ [squote] ++
         " section with tech stack and outcomes.".toList] ++
      (if "machine learning".toList ∈ J ∨ "nlp".toList ∈ J then
        ["Include datasets, model performance metrics (accuracy/F1), and deployment details.".toList]
      else [])) ∧
    ((analyze_resume_and_job envNone (some ex1Resume) (some ex1Job)).1.suggestions).any
      (jvalMentions ("kubernetes".toList)) = true := by
  constructor
  · intro R J
    unfold heuristic_suggestions
    simp only []
    have hsort : sortDedup (J.filter (fun x => !R.contains x)) =
        (J.toFinset \ R.toFinset).sort (· ≤ ·) := by
      rw [sortDedup_eq_sort_toFinset, filter_not_contains_toFinset]
    have hml : (J.contains ("machine learning".toList) ||
        J.contains ("nlp".toList)) = true ↔
        ("machine learning".toList ∈ J ∨ "nlp".toList ∈ J) := by
      rw [Bool.or_eq_true]
      constructor
      · rintro (h | h)
        · exact Or.inl (List.mem_of_elem_eq_true h)
        · exact Or.inr (List.mem_of_elem_eq_true h)
      · rintro (h | h)
        · exact Or.inl (List.elem_eq_true_of_mem h)
        · exact Or.inr (List.elem_eq_true_of_mem h)
    by_cases h1 : (J.filter (fun x => !R.contains x)).isEmpty = true
    · rw [if_pos h1, if_pos ((filter_not_contains_isEmpty R J).mp h1)]
      by_cases h2 : ("machine learning".toList ∈ J ∨ "nlp".toList ∈ J)
      · rw [if_pos (hml.mpr h2), if_pos h2]
      · rw [if_neg (fun hc => h2 (hml.mp hc)), if_neg h2]
    · rw [if_neg h1,
        if_neg (fun hc => h1 ((filter_not_contains_isEmpty R J).mpr hc)), hsort]
      by_cases h2 : ("machine learning".toList ∈ J ∨ "nlp".toList ∈ J)
      · rw [if_pos (hml.mpr h2), if_pos h2]
      · rw [if_neg (fun hc => h2 (hml.mp hc)), if_neg h2]
  · decide

/-- C9 counterexample: provider B (OpenAI), configured and answering with
a JSON array of eight elements, returns eight suggestions — more than 7. -/
theorem openai_json_array_exceeds_seven :
    (call_openai_suggestions envOpenaiArray8 [] []).length = 8 := by rfl

/-- C9 (amended): the line-split fallback paths of both providers return
at most 7 cleaned lines, but the JSON-array path returns the parsed array
in full, which can exceed 7 (provider B shown returning 8). -/
theorem split_paths_capped_json_path_uncapped :
    (∀ s : Str, (geminiSplitClean s).length ≤ 7) ∧
    (∀ s : Str, (openaiSplitClean s).length ≤ 7) ∧
    (call_openai_suggestions envOpenaiArray8 [] []).length = 8 := by
  refine ⟨fun s => ?_, fun s => ?_, rfl⟩
  · exact List.length_take_le _ _
  · exact List.length_take_le _ _

/-- C4 (code bug): with Gemini configured and a 2xx response whose JSON
body is the plain object `{}`, `text_out` becomes `json.dumps(data)`,
which parses as a non-list JSON value, so `call_gemini_suggestions`
falls off the end of the function and returns Python `None` — not a
sequence of suggestion strings. -/
theorem gemini_returns_none_on_plain_object :
    call_gemini_suggestions envGeminiEmptyBody [] [] = none := by rfl

theorem heuristic_two_le (R J : List Str) :
    2 ≤ (heuristic_suggestions R J).length := by
  unfold heuristic_suggestions
  simp only [List.length_append, List.length_cons, List.length_nil]
  omega

theorem heuristic_map_ne_nil (R J : List Str) :
    (heuristic_suggestions R J).map JVal.str ≠ [] := by
  intro h
  have h2 := heuristic_two_le R J
  rw [← List.length_map (f := JVal.str), h] at h2
  simp at h2

theorem isEmpty_false_of_ne_nil {α : Type} {l : List α} (h : l ≠ []) :
    l.isEmpty = false := by
  cases l with
  | nil => exact absurd rfl h
  | cons a t => rfl

theorem final_if_ne_nil (A B : List Str) (s2 : Option (List JVal)) :
    (if pyFalsySugg s2 = true then (heuristic_suggestions A B).map JVal.str
     else s2.getD []) ≠ [] := by
  cases s2 with
  | none => simpa [pyFalsySugg] using heuristic_map_ne_nil A B
  | some l =>
    cases l with
    | nil => simpa [pyFalsySugg] using heuristic_map_ne_nil A B
    | cons a t => simp [pyFalsySugg]

theorem analyze_suggestions_ne_nil (env : Env) (rt jd : Option Str) :
    (analyze_resume_and_job env rt jd).1.suggestions ≠ [] := by
  unfold analyze_resume_and_job
  simp only []
  exact final_if_ne_nil _ _ _

/-- C3: OpenAI is invoked only when its credential is configured (and the
module imported) and Gemini yielded nothing (not configured, `None`, or
empty); a configured Gemini returning a non-empty list short-circuits the
chain and its list is the result; when OpenAI is invoked and returns a
non-empty list, its list is the result; the heuristic fallback always has
at least 2 items, so the final suggestion list is never empty. -/
theorem suggestion_chain_precedence :
    (∀ R J : List Str, 2 ≤ (heuristic_suggestions R J).length) ∧
    (∀ (env : Env) (rt jd : Option Str),
      ((analyze_resume_and_job env rt jd).2.2 = true →
        envTruthy env.openai_api_key = true ∧ env.openai_module = true ∧
        ((envTruthy env.google_api_key || envTruthy env.gemini_api_key) = false ∨
          call_gemini_suggestions env (rt.getD []) (jd.getD []) = none ∨
          call_gemini_suggestions env (rt.getD []) (jd.getD []) = some [])) ∧
      (∀ l : List Str,
        (envTruthy env.google_api_key || envTruthy env.gemini_api_key) = true →
        call_gemini_suggestions env (rt.getD []) (jd.getD []) = some l → l ≠ [] →
        (analyze_resume_and_job env rt jd).2.2 = false ∧
        (analyze_resume_and_job env rt jd).1.suggestions = l.map JVal.str) ∧
      ((analyze_resume_and_job env rt jd).2.2 = true →
        call_openai_suggestions env (rt.getD []) (jd.getD []) ≠ [] →
        (analyze_resume_and_job env rt jd).1.suggestions =
          call_openai_suggestions env (rt.getD []) (jd.getD [])) ∧
      (analyze_resume_and_job env rt jd).1.suggestions ≠ []) := by
  refine ⟨heuristic_two_le,
    fun env rt jd => ⟨?_, ?_, ?_, analyze_suggestions_ne_nil env rt jd⟩⟩
  · intro hx
    unfold analyze_resume_and_job at hx
    simp only [] at hx
    have hmk : env.openai_module = true ∧ envTruthy env.openai_api_key = true := by
      rcases Bool.and_eq_true_iff.mp hx with ⟨h1, h2⟩
      exact ⟨(Bool.and_eq_true_iff.mp h1).2, h2⟩
    refine ⟨hmk.2, hmk.1, ?_⟩
    by_cases hg : (envTruthy env.google_api_key || envTruthy env.gemini_api_key) = true
    · rw [if_pos hg] at hx
      cases hgr : call_gemini_suggestions env (rt.getD []) (jd.getD []) with
      | none => exact Or.inr (Or.inl rfl)
      | some l =>
        rw [hgr] at hx
        rcases Bool.and_eq_true_iff.mp hx with ⟨h1, _⟩
        rcases Bool.and_eq_true_iff.mp h1 with ⟨hp, _⟩
        simp only [Option.map_some', pyFalsySugg] at hp
        have hl : l = [] := by
          have h2 := List.isEmpty_iff.mp hp
          simpa using h2
        exact Or.inr (Or.inr (by rw [hl]))
    · exact Or.inl (by simpa using hg)
  · intro l hg hgr hl
    have hl' : l.map JVal.str ≠ [] := by simpa using hl
    constructor
    · unfold analyze_resume_and_job
      simp only []
      rw [if_pos hg, hgr]
      simp only [Option.map_some', pyFalsySugg, isEmpty_false_of_ne_nil hl']
      rfl
    · unfold analyze_resume_and_job
      simp only []
      rw [if_pos hg, hgr]
      simp [pyFalsySugg, isEmpty_false_of_ne_nil hl']
  · intro hx hne
    unfold analyze_resume_and_job at hx ⊢
    simp only [] at hx ⊢
    rw [if_pos hx]
    simp [pyFalsySugg, isEmpty_false_of_ne_nil hne]

theorem suggestion_chain_precedence_witness :
    2 ≤ (heuristic_suggestions [] []).length ∧
    (analyze_resume_and_job envOpenaiOnly none none).1.suggestions =
      call_openai_suggestions envOpenaiOnly [] [] ∧
    (analyze_resume_and_job envOpenaiOnly none none).1.suggestions ≠ [] ∧
    envTruthy envOpenaiOnly.openai_api_key = true := by
  have h := suggestion_chain_precedence
  have h2 := h.2 envOpenaiOnly none none
  have hne : call_openai_suggestions envOpenaiOnly [] [] ≠ [] := by
    rw [show call_openai_suggestions envOpenaiOnly [] [] =
      [JVal.str ("x".toList)] from rfl]
    exact List.cons_ne_nil _ _
  have h22 : (analyze_resume_and_job envOpenaiOnly none none).2.2 = true := by rfl
  exact ⟨h.1 [] [], h2.2.2.1 h22 hne, h2.2.2.2, (h2.1 h22).1⟩
